import Mathlib

/-!
Verification of the SafeTown lane-detection core (detect.py, with the earlier
laneDetect.py variant for comparison).

Shallow embedding conventions:
* an OpenCV contour point `[[x, y]]` is the pair `(x, y) : Int × Int`
  (`x` = column index, `y` = row index);
* a contour is the list of its boundary points, read as a closed polygon;
* images are total pixel maps `(x, y) ↦ pixel` (OpenCV clips all drawing to
  the image rectangle; every theorem below only evaluates in-bounds pixels);
* OpenCV doubles are modelled as exact rationals: for integer contour points
  all moment sums are integers and the divisions below are exact rational
  divisions followed by Python `int(...)` truncation toward zero (`Int.tdiv`);
  Python `//` is floor division (`Int.fdiv`);
* binary masks are Boolean pixel maps (mask value 255 ↦ `true`, 0 ↦ `false`).
-/

namespace SafeTown

/-- Contour point `(x, y)`: `x` is the column, `y` the row. -/
abbrev Point : Type := Int × Int

/-- A contour: the ordered list of boundary points of one mask region,
read as a closed polygon. -/
abbrev Contour : Type := List Point

/-- A 3-channel pixel value (HSV as `(h, s, v)` or BGR as `(b, g, r)`). -/
abbrev Pix : Type := Int × Int × Int

/-- An image as a total pixel map from `(x, y)`. -/
abbrev Img : Type := Point → Pix

/-! ## OpenCV contour moments and area

`cv2.moments` on an integer point array and `cv2.contourArea` both use
Green's theorem over the closed polygon: with
`dxy_i = x_i * y_{i+1} - x_{i+1} * y_i` (indices cyclic),
`a00 = Σ dxy_i` is twice the signed area, `a10 = Σ dxy_i * (x_i + x_{i+1})`
and `a01 = Σ dxy_i * (y_i + y_{i+1})`.  OpenCV then reports
`m00 = |a00| / 2`, `m10 = sgn(a00) * a10 / 6`, `m01 = sgn(a00) * a01 / 6`,
so `m00 != 0` iff `a00 ≠ 0`, `contourArea = |a00| / 2`, and the centroid is
`m10 / m00 = a10 / (3 * a00)`, `m01 / m00 = a01 / (3 * a00)` exactly. -/

/-- The directed edges of the closed polygon `c`: each vertex paired with its
cyclic successor. -/
def polyEdges (c : Contour) : List (Point × Point) :=
  c.zip (c.rotate 1)

/-- Twice the signed polygon area, `a00 = Σ (x_i * y_{i+1} - x_{i+1} * y_i)`. -/
def a00 (c : Contour) : Int :=
  ((polyEdges c).map (fun e => e.1.1 * e.2.2 - e.2.1 * e.1.2)).sum

/-- Green-theorem first moment in x (six times the signed x-moment). -/
def a10 (c : Contour) : Int :=
  ((polyEdges c).map (fun e => (e.1.1 * e.2.2 - e.2.1 * e.1.2) * (e.1.1 + e.2.1))).sum

/-- Green-theorem first moment in y (six times the signed y-moment). -/
def a01 (c : Contour) : Int :=
  ((polyEdges c).map (fun e => (e.1.1 * e.2.2 - e.2.1 * e.1.2) * (e.1.2 + e.2.2))).sum

/-- Sort/max key standing for `cv2.contourArea c = |a00 c| / 2`.  Halving is
exact and strictly monotone, so every comparison (`<`, `≤`, `>`) between
`cv2.contourArea` values agrees with the comparison of these integer keys;
sorting / maximum selection by either key coincide. -/
def areaKey (c : Contour) : Int :=
  ((a00 c).natAbs : Int)

/-- Centroid of a contour per detect.py lines 137-142:
`(int(m10 / m00), int(m01 / m00))` when `m00 != 0`, else `(0, 0)`.
`m10 / m00 = a10 / (3 * a00)` exactly and Python `int` truncates toward 0. -/
def centroidOf (c : Contour) : Point :=
  if a00 c ≠ 0 then
    (Int.tdiv (a10 c) (3 * a00 c), Int.tdiv (a01 c) (3 * a00 c))
  else (0, 0)

/-- Centroid x of the outside-line slice per detect.py lines 160-164:
`int(m10 / m00)` when `m00 != 0`, else `0`. -/
def sliceCentroidX (s : Contour) : Int :=
  if a00 s ≠ 0 then Int.tdiv (a10 s) (3 * a00 s) else 0

/-! ## Python `list.sort(key=k)` and `max(xs, key=k)`

Python's sort is stable; any stable sort produces the same output, and the
insertion sort below is stable (a new element is placed before the first
element whose key is `≥` its own, i.e. before, and only before, elements that
followed it in the input among equal keys).  Python's `max` scans left to
right and replaces the current best only on a strictly greater key, so the
first maximal element wins. -/

/-- Stable insertion of `a` into `l` (before the first `b` with
`key a ≤ key b`). -/
def ordIns (key : α → Int) (a : α) : List α → List α
  | [] => [a]
  | b :: l => if key a ≤ key b then a :: b :: l else b :: ordIns key a l

/-- Python `list.sort(key=key)`: stable ascending sort by integer key. -/
def pySort (key : α → Int) : List α → List α
  | [] => []
  | a :: l => ordIns key a (pySort key l)

/-- Scanning worker of Python `max(xs, key=key)`: keeps the current best,
replacing it only when a strictly greater key appears. -/
def pyMaxGo (key : α → Int) (best : α) : List α → α
  | [] => best
  | b :: l => if key b > key best then pyMaxGo key b l else pyMaxGo key best l

/-- Python `max(xs, key=key)`: first element of maximal key (`none` on `[]`,
where Python raises; detect.py guards the call by a non-emptiness check). -/
def pyMax (key : α → Int) : List α → Option α
  | [] => none
  | a :: l => some (pyMaxGo key a l)

/-! ## find_center_points (detect.py lines 112-172) -/

/-- Number of points in a horizontal centroid slice (detect.py line 17). -/
def LEN_CENTROID_SLICE : Nat := 10

/-- Sort key of detect.py lines 146-147: `get_distance(val, rule) =
val[0][0] - rule`.  In the `tolist()` form each contour element is
`[[x, y]]`, so `val[0]` is `[x, y]` and `val[0][0]` is the x-coordinate:
the key is the signed difference between the point's column and `rule`. -/
def get_distance (val : Point) (rule : Int) : Int :=
  val.1 - rule

/-- The call `cv2.drawContours(frame, np.array(pts), 0, (255, 0, 0), 3)` of
detect.py line 125, where `pts` is the `(N, 1, 2)` vertex array of the
outside line: the binding reads the leading axis as `N` one-point contours
and index 0 draws a thickness-3 dot at the first vertex, in place.  We model
the painted set by that vertex pixel (the dot covers at least it); nothing
is drawn for an empty vertex list. -/
def drawOutsideDot (frame : Img) (c : Contour) : Img :=
  match c with
  | [] => frame
  | p :: _ => fun q => if q = p then (255, 0, 0) else frame q

/-- One loop iteration of detect.py lines 131-170, consuming the popped
contour `c`: compute its centroid, re-sort `outside_line` in place by
`get_distance(·, cy)`, take the first `LEN_CENTROID_SLICE` points as the
slice, compute the slice centroid x, and emit
`((mid_centroid_x + slice_centroid_x) // 2, mid_centroid_y)`.  The sorted
`outside_line` is threaded into the next iteration, as in the source where
`outside_line.sort` mutates the list.  Popping from the end of the
ascending-area list is modelled by consuming the reversed list head-first. -/
def fcpLoop : Contour → Nat → List Contour → List Point
  | _, 0, _ => []
  | _, _ + 1, [] => []
  | outside_line, k + 1, c :: rest =>
      let cent := centroidOf c
      let sorted_outside := pySort (fun p => get_distance p cent.2) outside_line
      let sub_c := sorted_outside.take LEN_CENTROID_SLICE
      let slice_centroid_x := sliceCentroidX sub_c
      (Int.fdiv (cent.1 + slice_centroid_x) 2, cent.2) ::
        fcpLoop sorted_outside k rest

/-- The function `find_center_points(outside_contours, inside_contours,
dot_num, frame)` of detect.py lines 112-172.  Returns the waypoint list
together with the frame as left by the in-place `cv2.drawContours` call
(the Python function mutates `frame`; the embedding passes the frame state
explicitly and returns it). -/
def find_center_points (outside_contours inside_contours : List Contour)
    (dot_num : Int) (frame : Img) : List Point × Img :=
  if outside_contours.length = 0 ∨ inside_contours.length = 0 then
    ([], frame)
  else
    match pyMax areaKey outside_contours with
    | none => ([], frame)
    | some outside_line =>
        let frame1 := drawOutsideDot frame outside_line
        let stack := (pySort areaKey inside_contours).reverse
        (fcpLoop outside_line dot_num.toNat stack, frame1)

/-- Derived notion used in theorem statements: the slice centroid x actually
used by every iteration of `find_center_points` — the centroid x of the
first `LEN_CENTROID_SLICE` points of the reference contour sorted by the
`get_distance` key (which, being a constant shift of the column, sorts by
column). -/
def refSliceX (outside_line : Contour) : Int :=
  sliceCentroidX ((pySort (fun p : Point => p.1) outside_line).take LEN_CENTROID_SLICE)

/-! ## get_lane_marker_mask (detect.py lines 57-110)

The `cvtColor(frame, COLOR_BGR2HSV)` conversion is applied identically by
both segmenter versions before any step the claims speak about; the
embedding therefore takes the already-converted HSV frame as input. -/

/-- Membership of `q` in the filled rectangle painted by
`cv2.rectangle(img, p1, p2, col, -1)` with `p1` the top-left and `p2` the
bottom-right corner: OpenCV includes both corner pixels, filling
`[x1, x2] × [y1, y2]` (clipped to the image rectangle; clipping is implicit
because masks are only read at in-bounds pixels). -/
def inFilledRect (p1 p2 q : Point) : Bool :=
  p1.1 ≤ q.1 && q.1 ≤ p2.1 && p1.2 ≤ q.2 && q.2 ≤ p2.2

/-- The image after `cv2.rectangle(img, p1, p2, col, -1)` (in-place in
OpenCV; the embedding returns the new image, and detect.py only ever applies
it to fresh `hsv.copy()` buffers). -/
def cvRectangleFill (img : Img) (p1 p2 : Point) (col : Pix) : Img :=
  fun q => if inFilledRect p1 p2 q then col else img q

/-- `right_side_hsv` of detect.py lines 68-74: the HSV frame with the
rectangle from `(0, 0)` to `(width // 2, height)` filled with `(0, 0, 0)`. -/
def right_side_frame (w h : Int) (hsv : Img) : Img :=
  cvRectangleFill hsv (0, 0) (Int.fdiv w 2, h) (0, 0, 0)

/-- `left_side_hsv` of detect.py lines 75-81: the HSV frame with the
rectangle from `(width // 2, 0)` to `(width, height)` filled with
`(0, 0, 0)`. -/
def left_side_frame (w h : Int) (hsv : Img) : Img :=
  cvRectangleFill hsv (Int.fdiv w 2, 0) (w, h) (0, 0, 0)

/-- `apply_tolerance(val, tolerance, max_val)` of detect.py lines 83-87:
the inclusive per-channel acceptance range, clamped to `[0, max_val]`. -/
def apply_tolerance (val tolerance max_val : Int) : Int × Int :=
  (if val - tolerance < 0 then 0 else val - tolerance,
   if val + tolerance > max_val then max_val else val + tolerance)

/-- One line's calibration entry: center color `hsv` and per-channel
`tolerance`, as read from the settings dictionary. -/
structure LineCalib where
  hsv : Pix
  tolerance : Pix

/-- The `color_calibration` dictionary: one entry per line. -/
structure ColorCalibration where
  outside_line : LineCalib
  center_line : LineCalib

/-- The `(lower, higher)` HSV bounds computed by `to_thruple` over the three
`apply_tolerance` calls (detect.py lines 89-98 and 102-107): hue clamped to
`[0, 360]`, saturation and value to `[0, 255]`. -/
def lineBounds (lc : LineCalib) : Pix × Pix :=
  (((apply_tolerance lc.hsv.1 lc.tolerance.1 360).1,
    (apply_tolerance lc.hsv.2.1 lc.tolerance.2.1 255).1,
    (apply_tolerance lc.hsv.2.2 lc.tolerance.2.2 255).1),
   ((apply_tolerance lc.hsv.1 lc.tolerance.1 360).2,
    (apply_tolerance lc.hsv.2.1 lc.tolerance.2.1 255).2,
    (apply_tolerance lc.hsv.2.2 lc.tolerance.2.2 255).2))

/-- `cv2.inRange` per pixel: all three channels within the inclusive
bounds. -/
def inRangeB (lo hi p : Pix) : Bool :=
  lo.1 ≤ p.1 && p.1 ≤ hi.1 && lo.2.1 ≤ p.2.1 && p.2.1 ≤ hi.2.1 &&
    lo.2.2 ≤ p.2.2 && p.2.2 ≤ hi.2.2

/-- `get_lane_marker_mask(frame, color_calibration)` of detect.py lines
57-110, after the BGR→HSV conversion: `w = frame.shape[1]` (width),
`h = frame.shape[0]` (height), `hsv` the converted frame.  Returns the pair
`(mask_outside, mask_inside)` as Boolean pixel maps. -/
def get_lane_marker_mask (w h : Int) (hsv : Img) (calib : ColorCalibration) :
    (Point → Bool) × (Point → Bool) :=
  let ob := lineBounds calib.outside_line
  let cb := lineBounds calib.center_line
  (fun p => inRangeB ob.1 ob.2 (right_side_frame w h hsv p),
   fun p => inRangeB cb.1 cb.2 (left_side_frame w h hsv p))

/-! ## getLaneMarkerMask (laneDetect.py lines 81-107), the earlier
saturation-tolerance-only variant -/

/-- `applySaturationTolerance(x, tolerance)` of laneDetect.py lines 85-94:
the tolerance is applied to the saturation channel only, clamped to
`[0, 100]`; the hue and value bounds are the calibrated values themselves. -/
def applySaturationTolerance (x : Pix) (tolerance : Int) : Pix × Pix :=
  ((x.1, if x.2.1 - tolerance < 0 then 0 else x.2.1 - tolerance, x.2.2),
   (x.1, if x.2.1 + tolerance > 100 then 100 else x.2.1 + tolerance, x.2.2))

/-- `getLaneMarkerMask(frame, center_color, outside_color, value_tolerance)`
of laneDetect.py lines 81-107, after the BGR→HSV conversion: returns the
merged marker mask `mask_outside | mask_inside`.  Note that the inside
`inRange` call on line 102 uses `lower_outside` as its lower bound. -/
def getLaneMarkerMask (hsv : Img) (center_color outside_color : Pix)
    (value_tolerance : Int) : Point → Bool :=
  let ob := applySaturationTolerance outside_color value_tolerance
  let ib := applySaturationTolerance center_color value_tolerance
  fun p => inRangeB ob.1 ob.2 (hsv p) || inRangeB ob.1 ib.2 (hsv p)

/-! ## Lemmas about the sort and max embeddings -/

/-- A list is sorted ascending with respect to an integer key. -/
def KeySorted (key : α → Int) (l : List α) : Prop :=
  l.Pairwise (fun a b => key a ≤ key b)

theorem ordIns_length (key : α → Int) (a : α) (l : List α) :
    (ordIns key a l).length = l.length + 1 := by
  induction l with
  | nil => rfl
  | cons b l ih =>
      simp only [ordIns]
      split <;> simp [ih]

theorem pySort_length (key : α → Int) (l : List α) :
    (pySort key l).length = l.length := by
  induction l with
  | nil => rfl
  | cons a l ih => simp [pySort, ordIns_length, ih]

theorem mem_ordIns (key : α → Int) (a x : α) (l : List α) :
    x ∈ ordIns key a l ↔ x = a ∨ x ∈ l := by
  induction l with
  | nil => simp [ordIns]
  | cons b l ih =>
      simp only [ordIns]
      split
      · simp
      · simp [ih]
        tauto

theorem mem_pySort (key : α → Int) (x : α) (l : List α) :
    x ∈ pySort key l ↔ x ∈ l := by
  induction l with
  | nil => simp [pySort]
  | cons a l ih => simp [pySort, mem_ordIns, ih]

theorem ordIns_sorted (key : α → Int) (a : α) {l : List α}
    (h : KeySorted key l) : KeySorted key (ordIns key a l) := by
  induction l with
  | nil => simp [ordIns, KeySorted]
  | cons b l ih =>
      rw [KeySorted, List.pairwise_cons] at h
      obtain ⟨hb, hl⟩ := h
      simp only [ordIns]
      split
      · rename_i hab
        rw [KeySorted, List.pairwise_cons]
        refine ⟨?_, List.pairwise_cons.mpr ⟨hb, hl⟩⟩
        intro x hx
        rcases List.mem_cons.mp hx with hx | hx
        · exact hx ▸ hab
        · exact le_trans hab (hb x hx)
      · rename_i hab
        rw [KeySorted, List.pairwise_cons]
        refine ⟨?_, ih hl⟩
        intro x hx
        rcases (mem_ordIns key a x l).mp hx with hx | hx
        · exact hx ▸ le_of_lt (not_le.mp hab)
        · exact hb x hx

theorem pySort_sorted (key : α → Int) (l : List α) :
    KeySorted key (pySort key l) := by
  induction l with
  | nil => simp [pySort, KeySorted]
  | cons a l ih => exact ordIns_sorted key a ih

theorem pySort_eq_self (key : α → Int) {l : List α}
    (h : KeySorted key l) : pySort key l = l := by
  induction l with
  | nil => rfl
  | cons a l ih =>
      rw [KeySorted, List.pairwise_cons] at h
      obtain ⟨ha, hl⟩ := h
      rw [pySort, ih hl]
      cases l with
      | nil => rfl
      | cons b t =>
          rw [ordIns, if_pos (ha b (List.mem_cons_self b t))]

theorem ordIns_congr (key1 key2 : α → Int)
    (hk : ∀ a b, key1 a ≤ key1 b ↔ key2 a ≤ key2 b) (a : α) (l : List α) :
    ordIns key1 a l = ordIns key2 a l := by
  induction l with
  | nil => rfl
  | cons b l ih =>
      simp only [ordIns]
      by_cases h : key1 a ≤ key1 b
      · rw [if_pos h, if_pos ((hk a b).mp h)]
      · rw [if_neg h, if_neg (fun h2 => h ((hk a b).mpr h2)), ih]

theorem pySort_congr (key1 key2 : α → Int)
    (hk : ∀ a b, key1 a ≤ key1 b ↔ key2 a ≤ key2 b) (l : List α) :
    pySort key1 l = pySort key2 l := by
  induction l with
  | nil => rfl
  | cons a l ih => rw [pySort, pySort, ih, ordIns_congr key1 key2 hk]

/-- The `get_distance` key is a constant shift of the column, so the in-place
sort of detect.py line 154 is the stable sort by column, whatever `rule` is. -/
theorem pySort_get_distance (r : Int) (l : List Point) :
    pySort (fun p => get_distance p r) l = pySort (fun p : Point => p.1) l :=
  pySort_congr _ _ (fun a b => by simp only [get_distance]; omega) l

theorem pySort_x_idem (l : List Point) :
    pySort (fun p : Point => p.1) (pySort (fun p : Point => p.1) l) =
      pySort (fun p : Point => p.1) l :=
  pySort_eq_self _ (pySort_sorted _ l)

theorem refSliceX_sort (l : List Point) :
    refSliceX (pySort (fun p : Point => p.1) l) = refSliceX l := by
  rw [refSliceX, refSliceX, pySort_x_idem]

/-- Python `max` characterization: `pyMaxGo key a l` is an element of
`a :: l` of maximal key, and all elements strictly before it have a strictly
smaller key (the first maximal element wins every tie). -/
theorem pyMaxGo_spec (key : α → Int) (a : α) (l : List α) :
    ∃ l1 l2, a :: l = l1 ++ pyMaxGo key a l :: l2 ∧
      (∀ x ∈ l1, key x < key (pyMaxGo key a l)) ∧
      (∀ x ∈ a :: l, key x ≤ key (pyMaxGo key a l)) := by
  induction l generalizing a with
  | nil =>
      refine ⟨[], [], rfl, by simp, ?_⟩
      intro x hx
      rw [List.mem_singleton.mp hx]
      exact le_refl _
  | cons b l ih =>
      by_cases h : key b > key a
      · obtain ⟨l1, l2, e, h1, h2⟩ := ih b
        rw [pyMaxGo, if_pos h]
        refine ⟨a :: l1, l2, by rw [List.cons_append, ← e], ?_, ?_⟩
        · intro x hx
          rcases List.mem_cons.mp hx with hx | hx
          · exact hx ▸ lt_of_lt_of_le h (h2 b (List.mem_cons_self b l))
          · exact h1 x hx
        · intro x hx
          rcases List.mem_cons.mp hx with hx | hx
          · exact hx ▸ le_of_lt (lt_of_lt_of_le h (h2 b (List.mem_cons_self b l)))
          · exact h2 x hx
      · obtain ⟨l1, l2, e, h1, h2⟩ := ih a
        rw [pyMaxGo, if_neg h]
        have hba : key b ≤ key a := not_lt.mp h
        cases l1 with
        | nil =>
            rw [List.nil_append] at e
            injection e with ea el
            refine ⟨[], b :: l2, ?_, by simp, ?_⟩
            · rw [List.nil_append, ← ea, ← el]
            · intro x hx
              rcases List.mem_cons.mp hx with hx | hx
              · exact hx ▸ h2 a (List.mem_cons_self a l)
              · rcases List.mem_cons.mp hx with hx | hx
                · exact hx ▸ le_trans hba (h2 a (List.mem_cons_self a l))
                · exact h2 x (List.mem_cons_of_mem a hx)
        | cons c t =>
            rw [List.cons_append] at e
            injection e with ea el
            have hac : key a < key (pyMaxGo key a l) :=
              ea ▸ h1 c (List.mem_cons_self c t)
            refine ⟨a :: b :: t, l2, ?_, ?_, ?_⟩
            · rw [List.cons_append, List.cons_append, ← el]
            · intro x hx
              rcases List.mem_cons.mp hx with hx | hx
              · exact hx ▸ hac
              · rcases List.mem_cons.mp hx with hx | hx
                · exact hx ▸ lt_of_le_of_lt hba hac
                · exact h1 x (List.mem_cons_of_mem c hx)
            · intro x hx
              rcases List.mem_cons.mp hx with hx | hx
              · exact hx ▸ h2 a (List.mem_cons_self a l)
              · rcases List.mem_cons.mp hx with hx | hx
                · exact hx ▸ le_trans hba (h2 a (List.mem_cons_self a l))
                · exact h2 x (List.mem_cons_of_mem a hx)

/-- Python `max` on a non-empty list: the first element of maximal key. -/
theorem pyMax_spec (key : α → Int) (l : List α) (h : l ≠ []) :
    ∃ m l1 l2, pyMax key l = some m ∧ l = l1 ++ m :: l2 ∧
      (∀ x ∈ l1, key x < key m) ∧ (∀ x ∈ l, key x ≤ key m) := by
  cases l with
  | nil => exact absurd rfl h
  | cons a t =>
      obtain ⟨l1, l2, e, h1, h2⟩ := pyMaxGo_spec key a t
      exact ⟨pyMaxGo key a t, l1, l2, rfl, e, h1, h2⟩

/-! ## Characterization of the interpolation loop -/

/-- Closed form of the loop of detect.py lines 131-170: since the
`get_distance` key is the column shifted by a constant, the first in-place
sort leaves `outside_line` sorted by column and every later sort is the
identity, so the slice — hence its centroid x — is the same in every
iteration, and the loop maps the waypoint formula over the first `k` popped
contours. -/
theorem fcpLoop_eq (oline : Contour) (k : Nat) (stack : List Contour) :
    fcpLoop oline k stack = (stack.take k).map (fun c =>
      (Int.fdiv ((centroidOf c).1 + refSliceX oline) 2, (centroidOf c).2)) := by
  induction k generalizing oline stack with
  | zero => simp [fcpLoop]
  | succ k ih =>
      cases stack with
      | nil => simp [fcpLoop]
      | cons c rest =>
          simp only [fcpLoop]
          rw [pySort_get_distance, ih, refSliceX_sort, List.take_succ_cons,
            List.map_cons, refSliceX]

theorem length_eq_zero_iff_nil (l : List α) : l.length = 0 ↔ l = [] :=
  List.length_eq_zero

/-- Closed form of `find_center_points` for non-empty inputs: the reference
contour is Python `max` by area over the outside contours, the waypoints are
the waypoint formula mapped over the first `dot_num` contours of the
area-descending center list, and the returned frame is the input frame with
the reference contour drawn on it. -/
theorem find_center_points_spec (o i : List Contour) (n : Int) (f : Img)
    (ho : o ≠ []) (hi : i ≠ []) :
    ∃ m, pyMax areaKey o = some m ∧
      (find_center_points o i n f).1 =
        ((pySort areaKey i).reverse.take n.toNat).map (fun c =>
          (Int.fdiv ((centroidOf c).1 + refSliceX m) 2, (centroidOf c).2)) ∧
      (find_center_points o i n f).2 = drawOutsideDot f m := by
  obtain ⟨m, l1, l2, hm, _, _, _⟩ := pyMax_spec areaKey o ho
  refine ⟨m, hm, ?_⟩
  rw [find_center_points, if_neg ?_, hm]
  · exact ⟨fcpLoop_eq m n.toNat _, rfl⟩
  · rw [length_eq_zero_iff_nil, length_eq_zero_iff_nil]
    tauto

/-! ## Concrete data used by witnesses and counterexamples -/

/-- Axis-aligned square contour of side 2 at the origin: `a00 = 8`
(area 4), centroid `(1, 1)`. -/
def sqSmall : Contour := [(0, 0), (2, 0), (2, 2), (0, 2)]

/-- Axis-aligned square contour of side 4: `a00 = 32` (area 16),
centroid `(12, 12)`. -/
def sqBig : Contour := [(10, 10), (14, 10), (14, 14), (10, 14)]

/-- Axis-aligned square contour of side 2 near column 100, standing in for
an outside-line contour. -/
def sqOut : Contour := [(100, 0), (102, 0), (102, 2), (100, 2)]

/-- A degenerate (zero-area) two-point contour: `a00 = 0`. -/
def degenSeg : Contour := [(0, 0), (5, 0)]

/-- An all-black image. -/
def blackImg : Img := fun _ => (0, 0, 0)

/-- A constant mid-gray image. -/
def grayImg : Img := fun _ => (100, 100, 100)

/-- An outside-line contour exposing the slice-selection defect: ten points
in row 100 at columns 0..9, plus one point `(1000, 1)` in row 1. -/
def olineBug : Contour :=
  [(0, 100), (1, 100), (2, 100), (3, 100), (4, 100), (5, 100), (6, 100),
   (7, 100), (8, 100), (9, 100), (1000, 1)]

/-- A calibration whose both lines are centered at `(0, 0, 0)` with zero
tolerance: a valid ColorSpec/Tolerance pair whose acceptance range is
exactly the black fill. -/
def blackCalib : ColorCalibration :=
  ⟨⟨(0, 0, 0), (0, 0, 0)⟩, ⟨(0, 0, 0), (0, 0, 0)⟩⟩

/-- A white-tape/yellow-tape calibration with tolerance 15 per channel,
matching the constants of detect.py. -/
def demoCalib : ColorCalibration :=
  ⟨⟨(0, 0, 255), (15, 15, 15)⟩, ⟨(30, 85, 255), (15, 15, 15)⟩⟩

/-- A constant HSV image with pixel `(5, 5, 250)`, accepted by the
three-channel segmenter's white calibration but by neither `inRange` of the
saturation-only variant. -/
def oldDemoHsv : Img := fun _ => (5, 5, 250)

/-! ## Claims -/

/-- C1: the claim says the reference contour's points are sorted by absolute
vertical distance to `cy` and the nearest `LEN_CENTROID_SLICE = 10` points
are taken.  The code's key `get_distance(val, rule) = val[0][0] - rule` is
the signed difference of the point's column (not row) from `cy`, so the
slice is the ten leftmost points.  Concretely, with `cy = 1`, the slice
taken from `olineBug` consists only of points at absolute vertical distance
99, and excludes the point `(1000, 1)` at absolute vertical distance 0 —
the code contradicts its own comment (detect.py lines 144-151). -/
theorem C1_slice_not_nearest :
    ((pySort (fun p => get_distance p 1) olineBug).take LEN_CENTROID_SLICE).all
        (fun p => (p.2 - 1).natAbs == 99) = true ∧
      ((pySort (fun p => get_distance p 1) olineBug).take
          LEN_CENTROID_SLICE).contains ((1000 : Int), (1 : Int)) = false ∧
      olineBug.contains ((1000 : Int), (1 : Int)) = true ∧
      (((1 : Int) - 1).natAbs == 0) = true := by
  decide

/-- C2: every emitted waypoint of `find_center_points` equals
`((cx + slice_cx) // 2, cy)` for the centroid `(cx, cy)` of some center-line
contour of the input and the matched outside-line slice centroid x; in
particular its y-coordinate is exactly that contour's centroid
y-coordinate. -/
theorem C2_waypoint_formula (o i : List Contour) (n : Int) (f : Img)
    (pt : Point) (hpt : pt ∈ (find_center_points o i n f).1) :
    ∃ m c, pyMax areaKey o = some m ∧ c ∈ i ∧
      pt = (Int.fdiv ((centroidOf c).1 + refSliceX m) 2, (centroidOf c).2) := by
  by_cases ho : o = []
  · simp [find_center_points, ho] at hpt
  by_cases hi : i = []
  · simp [find_center_points, hi] at hpt
  obtain ⟨m, hm, hp, _⟩ := find_center_points_spec o i n f ho hi
  rw [hp] at hpt
  obtain ⟨c, hc, he⟩ := List.mem_map.mp hpt
  refine ⟨m, c, hm, ?_, he.symm⟩
  exact (mem_pySort _ _ _).mp (List.mem_reverse.mp (List.take_subset _ _ hc))

/-- Witness for C2 at a concrete input: the single waypoint of
`find_center_points [sqOut] [sqSmall] 5` is `(0, 1)`. -/
theorem C2_witness :
    ∃ m c, pyMax areaKey [sqOut] = some m ∧ c ∈ [sqSmall] ∧
      ((0 : Int), (1 : Int)) =
        (Int.fdiv ((centroidOf c).1 + refSliceX m) 2, (centroidOf c).2) :=
  C2_waypoint_formula [sqOut] [sqSmall] 5 blackImg (0, 1) (by decide)

/-- C3: with a non-empty outside set, positive-area center contours and
`n ≥ 0`, the number of waypoints is exactly `min n (number of center
contours)` — never more than requested, never more than available. -/
theorem C3_waypoint_count (o i : List Contour) (n : Int) (f : Img)
    (ho : o ≠ []) (_hn : 0 ≤ n) (_hpos : ∀ c ∈ i, 0 < areaKey c) :
    (find_center_points o i n f).1.length = min n.toNat i.length := by
  by_cases hi : i = []
  · simp [find_center_points, hi]
  obtain ⟨m, hm, hp, _⟩ := find_center_points_spec o i n f ho hi
  rw [hp, List.length_map, List.length_take, List.length_reverse,
    pySort_length]

/-- Witness for C3 at a concrete input: two positive-area center contours,
five requested waypoints, two returned. -/
theorem C3_witness :
    (find_center_points [sqOut] [sqSmall, sqBig] 5 blackImg).1.length =
      min (5 : Int).toNat [sqSmall, sqBig].length :=
  C3_waypoint_count [sqOut] [sqSmall, sqBig] 5 blackImg (by decide)
    (by decide) (by decide)

/-- C4: the per-channel acceptance range of `apply_tolerance` is
`lower = max 0 (c - t)`, `upper = min max_c (c + t)`, and for calibrated
`0 ≤ c ≤ max_c` and tolerance `0 ≤ t` it satisfies
`0 ≤ lower ≤ c ≤ upper ≤ max_c`: the range clamps at the channel bounds
(in particular hue clamps at 0 and 360 rather than wrapping). -/
theorem C4_apply_tolerance_range (c t maxc : Int) (h0 : 0 ≤ c)
    (h1 : c ≤ maxc) (ht : 0 ≤ t) :
    0 ≤ (apply_tolerance c t maxc).1 ∧ (apply_tolerance c t maxc).1 ≤ c ∧
      c ≤ (apply_tolerance c t maxc).2 ∧ (apply_tolerance c t maxc).2 ≤ maxc ∧
      (apply_tolerance c t maxc).1 = max 0 (c - t) ∧
      (apply_tolerance c t maxc).2 = min maxc (c + t) := by
  refine ⟨?_, ?_, ?_, ?_, ?_, ?_⟩ <;>
    simp only [apply_tolerance] <;> split <;> omega

/-- Witness for C4 at hue value 30, tolerance 45, channel maximum 360:
the lower bound clamps at 0 instead of wrapping. -/
theorem C4_witness :
    0 ≤ (apply_tolerance 30 45 360).1 ∧ (apply_tolerance 30 45 360).1 ≤ 30 ∧
      (30 : Int) ≤ (apply_tolerance 30 45 360).2 ∧
      (apply_tolerance 30 45 360).2 ≤ 360 ∧
      (apply_tolerance 30 45 360).1 = max 0 (30 - 45) ∧
      (apply_tolerance 30 45 360).2 = min 360 (30 + 45) :=
  C4_apply_tolerance_range 30 45 360 (by decide) (by decide) (by decide)

/-- C5 counterexample: the claim says exactly the columns `[0, width//2)`
of the outside-line search frame are forced to `(0,0,0)` and that for every
calibration the outside mask is zero on the left half.  With width 4 the
split column is 2, yet `right_side_frame` is black at column 2 as well
(`cv2.rectangle` fills both corners inclusively), and with the valid
calibration centered at `(0,0,0)` with zero tolerance the outside mask is
true at `(0, 0)` in the left half. -/
theorem C5_counterexample :
    right_side_frame 4 2 grayImg (2, 0) = (0, 0, 0) ∧
      grayImg (2, 0) ≠ (0, 0, 0) ∧
      (get_lane_marker_mask 4 2 blackImg blackCalib).1 (0, 0) = true := by
  decide

/-- C5 amended: the outside-line search frame is black exactly on the
columns `[0, width//2]` — the split column included — so the outside line is
searched only in `(width//2, width)`; the center-line search frame is black
exactly on `[width//2, width)` (within bounds); and each mask is zero on its
blanked columns for every calibration whose acceptance range excludes
`(0,0,0)`. -/
theorem C5_amended (w h : Int) (hsv : Img) (calib : ColorCalibration)
    (p : Point) :
    ((0 ≤ p.1 ∧ p.1 ≤ Int.fdiv w 2 ∧ 0 ≤ p.2 ∧ p.2 ≤ h) →
        right_side_frame w h hsv p = (0, 0, 0)) ∧
      ((Int.fdiv w 2 < p.1 ∨ p.1 < 0 ∨ p.2 < 0 ∨ h < p.2) →
        right_side_frame w h hsv p = hsv p) ∧
      ((Int.fdiv w 2 ≤ p.1 ∧ p.1 ≤ w ∧ 0 ≤ p.2 ∧ p.2 ≤ h) →
        left_side_frame w h hsv p = (0, 0, 0)) ∧
      ((p.1 < Int.fdiv w 2 ∨ w < p.1 ∨ p.2 < 0 ∨ h < p.2) →
        left_side_frame w h hsv p = hsv p) ∧
      (inRangeB (lineBounds calib.outside_line).1
          (lineBounds calib.outside_line).2 (0, 0, 0) = false →
        (0 ≤ p.1 ∧ p.1 ≤ Int.fdiv w 2 ∧ 0 ≤ p.2 ∧ p.2 ≤ h) →
        (get_lane_marker_mask w h hsv calib).1 p = false) ∧
      (inRangeB (lineBounds calib.center_line).1
          (lineBounds calib.center_line).2 (0, 0, 0) = false →
        (Int.fdiv w 2 ≤ p.1 ∧ p.1 ≤ w ∧ 0 ≤ p.2 ∧ p.2 ≤ h) →
        (get_lane_marker_mask w h hsv calib).2 p = false) := by
  have hr1 : ∀ hp : 0 ≤ p.1 ∧ p.1 ≤ Int.fdiv w 2 ∧ 0 ≤ p.2 ∧ p.2 ≤ h,
      right_side_frame w h hsv p = (0, 0, 0) := by
    intro hp
    simp only [right_side_frame, cvRectangleFill, inFilledRect]
    rw [if_pos]
    simp only [Bool.and_eq_true, decide_eq_true_eq]
    omega
  have hl1 : ∀ hp : Int.fdiv w 2 ≤ p.1 ∧ p.1 ≤ w ∧ 0 ≤ p.2 ∧ p.2 ≤ h,
      left_side_frame w h hsv p = (0, 0, 0) := by
    intro hp
    simp only [left_side_frame, cvRectangleFill, inFilledRect]
    rw [if_pos]
    simp only [Bool.and_eq_true, decide_eq_true_eq]
    omega
  refine ⟨hr1, ?_, hl1, ?_, ?_, ?_⟩
  · intro hp
    simp only [right_side_frame, cvRectangleFill, inFilledRect]
    rw [if_neg]
    simp only [Bool.and_eq_true, decide_eq_true_eq]
    omega
  · intro hp
    simp only [left_side_frame, cvRectangleFill, inFilledRect]
    rw [if_neg]
    simp only [Bool.and_eq_true, decide_eq_true_eq]
    omega
  · intro hb hp
    simp only [get_lane_marker_mask]
    rw [hr1 hp]
    exact hb
  · intro hb hp
    simp only [get_lane_marker_mask]
    rw [hl1 hp]
    exact hb

/-- Witness for C5 at width 4, height 2 with the white-tape calibration:
pixel `(1, 1)` is blanked in the right-side frame, pixel `(3, 1)` is kept,
and the outside mask is zero at the blanked pixel. -/
theorem C5_witness :
    right_side_frame 4 2 grayImg (1, 1) = (0, 0, 0) ∧
      right_side_frame 4 2 grayImg (3, 1) = grayImg (3, 1) ∧
      (get_lane_marker_mask 4 2 grayImg demoCalib).1 (1, 1) = false :=
  ⟨(C5_amended 4 2 grayImg demoCalib (1, 1)).1 (by decide),
   (C5_amended 4 2 grayImg demoCalib (3, 1)).2.1 (Or.inl (by decide)),
   (C5_amended 4 2 grayImg demoCalib (1, 1)).2.2.2.2.1 (by decide)
     (by decide)⟩

/-- C6: the reference contour is the first outside contour of maximal area
(Python `max` keeps the earliest element over ties); the center contours are
sorted by ascending area and processed in descending area order (the
reversed ascending sort, truncated to the requested count, is pairwise
descending in area); and the waypoints are this processing order mapped
through the waypoint formula — never re-sorted by position. -/
theorem C6_selection_and_order (o i : List Contour) (n : Int) (f : Img)
    (ho : o ≠ []) (hi : i ≠ []) :
    ∃ m l1 l2, pyMax areaKey o = some m ∧ o = l1 ++ m :: l2 ∧
      (∀ x ∈ l1, areaKey x < areaKey m) ∧
      (∀ x ∈ o, areaKey x ≤ areaKey m) ∧
      List.Pairwise (fun a b => areaKey b ≤ areaKey a)
        ((pySort areaKey i).reverse.take n.toNat) ∧
      (find_center_points o i n f).1 =
        ((pySort areaKey i).reverse.take n.toNat).map (fun c =>
          (Int.fdiv ((centroidOf c).1 + refSliceX m) 2, (centroidOf c).2)) := by
  obtain ⟨m, l1, l2, hm, he, h1, h2⟩ := pyMax_spec areaKey o ho
  obtain ⟨m2, hm2, hp, _⟩ := find_center_points_spec o i n f ho hi
  rw [hm] at hm2
  injection hm2 with hmm
  subst hmm
  refine ⟨m, l1, l2, hm, he, h1, h2, ?_, hp⟩
  exact List.Pairwise.sublist (List.take_sublist _ _)
    (List.pairwise_reverse.mpr (pySort_sorted areaKey i))

/-- Witness for C6 at a concrete input with two center contours of distinct
areas. -/
theorem C6_witness :
    ∃ m l1 l2, pyMax areaKey [sqOut] = some m ∧ [sqOut] = l1 ++ m :: l2 ∧
      (∀ x ∈ l1, areaKey x < areaKey m) ∧
      (∀ x ∈ [sqOut], areaKey x ≤ areaKey m) ∧
      List.Pairwise (fun a b => areaKey b ≤ areaKey a)
        ((pySort areaKey [sqSmall, sqBig]).reverse.take (5 : Int).toNat) ∧
      (find_center_points [sqOut] [sqSmall, sqBig] 5 blackImg).1 =
        ((pySort areaKey [sqSmall, sqBig]).reverse.take (5 : Int).toNat).map
          (fun c =>
            (Int.fdiv ((centroidOf c).1 + refSliceX m) 2, (centroidOf c).2)) :=
  C6_selection_and_order [sqOut] [sqSmall, sqBig] 5 blackImg (by decide)
    (by decide)

/-- C7: `find_center_points` is total on degenerate geometry: an empty
contour set on either side yields the empty waypoint list, a zero-area
center contour gets centroid `(0, 0)`, and a zero-moment slice gets
centroid x `0`. -/
theorem C7_degenerate_fallbacks (o i : List Contour) (n : Int) (f : Img) :
    ((o = [] ∨ i = []) → (find_center_points o i n f).1 = []) ∧
      (∀ c : Contour, a00 c = 0 → centroidOf c = (0, 0)) ∧
      (∀ s : Contour, a00 s = 0 → sliceCentroidX s = 0) := by
  refine ⟨?_, ?_, ?_⟩
  · intro h
    rcases h with h | h <;> simp [find_center_points, h]
  · intro c h
    simp [centroidOf, h]
  · intro s h
    simp [sliceCentroidX, h]

/-- Witness for C7: empty outside set, a degenerate contour, and a
degenerate slice, all at concrete inputs. -/
theorem C7_witness :
    (find_center_points [] [sqSmall] 3 blackImg).1 = [] ∧
      centroidOf degenSeg = (0, 0) ∧ sliceCentroidX degenSeg = 0 :=
  ⟨(C7_degenerate_fallbacks [] [sqSmall] 3 blackImg).1 (Or.inl rfl),
   (C7_degenerate_fallbacks [] [] 0 blackImg).2.1 degenSeg (by decide),
   (C7_degenerate_fallbacks [] [] 0 blackImg).2.2 degenSeg (by decide)⟩

/-- C8 counterexample: the claim says no argument is mutated, in particular
the frame.  The in-place `cv2.drawContours` call of detect.py line 125
paints on the caller's frame: after the call on an all-black frame the pixel
at the reference contour's first vertex `(100, 0)` is no longer black. -/
theorem C8_counterexample :
    (find_center_points [sqOut] [sqSmall] 1 blackImg).2 (100, 0) ≠
      blackImg (100, 0) := by
  decide

/-- C8 amended: the waypoint list is a pure function of the contour
arguments — it does not depend on the frame, and the contour sequences are
not mutated (the source rebinds `list(...)` copies and sorts only those) —
but the frame argument is not left unchanged: `find_center_points` draws the
outside reference contour onto it in place without copying. -/
theorem C8_amended :
    (∀ (o i : List Contour) (n : Int) (f g : Img),
        (find_center_points o i n f).1 = (find_center_points o i n g).1) ∧
      ¬ (∀ (o i : List Contour) (n : Int) (f : Img),
          (find_center_points o i n f).2 = f) := by
  constructor
  · intro o i n f g
    by_cases h : o.length = 0 ∨ i.length = 0
    · have h2 : o = [] ∨ i = [] := by
        simpa [List.length_eq_zero] using h
      simp [find_center_points, h2]
    · simp only [find_center_points, if_neg h]
      cases pyMax areaKey o
      · rfl
      · rfl
  · intro hall
    have h := congrFun (hall [sqOut] [sqSmall] 1 blackImg) (100, 0)
    exact absurd h (by decide)

/-- Witness for C8: frame-independence of the waypoint list at two concrete
frames. -/
theorem C8_witness :
    (find_center_points [sqOut] [sqSmall] 2 blackImg).1 =
      (find_center_points [sqOut] [sqSmall] 2 grayImg).1 :=
  C8_amended.1 [sqOut] [sqSmall] 2 blackImg grayImg

/-- C9: the earlier saturation-tolerance-only segmenter of laneDetect.py is
not behaviorally equivalent to the three-channel segmenter of detect.py: its
bounds move only the saturation channel, clamped to `[0, 100]` (first
conjunct), its center-line `inRange` reuses the outside line's lower bound
(definition of `getLaneMarkerMask`), and on the concrete HSV pixel
`(5, 5, 250)` with the matching white/yellow calibration the old merged mask
rejects a pixel that the new outside mask accepts. -/
theorem C9_variants_differ :
    (∀ (x : Pix) (t : Int),
        (applySaturationTolerance x t).1 = (x.1, max 0 (x.2.1 - t), x.2.2) ∧
          (applySaturationTolerance x t).2 =
            (x.1, min 100 (x.2.1 + t), x.2.2)) ∧
      getLaneMarkerMask oldDemoHsv (30, 85, 255) (0, 0, 255) 15 (3, 0) =
        false ∧
      (get_lane_marker_mask 4 4 oldDemoHsv demoCalib).1 (3, 0) = true := by
  refine ⟨?_, by decide, by decide⟩
  intro x t
  constructor <;>
    simp only [applySaturationTolerance, Prod.mk.injEq, true_and, and_true] <;>
    split <;> omega

/-- C10: waypoints are emitted for degenerate dashes too: for every
non-empty outside set the waypoint count is `min n (number of center
contours)` with no positive-area precondition, a requested count `n ≤ 0`
yields the empty list, and every processed zero-area center contour
contributes the waypoint `(slice_cx // 2, 0)`. -/
theorem C10_degenerate_dashes (o i : List Contour) (n : Int) (f : Img)
    (ho : o ≠ []) :
    ((find_center_points o i n f).1.length = min n.toNat i.length) ∧
      (n ≤ 0 → (find_center_points o i n f).1 = []) ∧
      (∀ m, pyMax areaKey o = some m →
        ∀ c ∈ (pySort areaKey i).reverse.take n.toNat, a00 c = 0 →
          (Int.fdiv (refSliceX m) 2, (0 : Int)) ∈
            (find_center_points o i n f).1) := by
  by_cases hi : i = []
  · subst hi
    refine ⟨by simp [find_center_points], by simp [find_center_points], ?_⟩
    intro m _ c hc
    simp [pySort] at hc
  obtain ⟨m2, hm2, hp, _⟩ := find_center_points_spec o i n f ho hi
  refine ⟨?_, ?_, ?_⟩
  · rw [hp, List.length_map, List.length_take, List.length_reverse,
      pySort_length]
  · intro hn
    rw [hp, Int.toNat_of_nonpos hn]
    simp
  · intro m hm c hc hc0
    rw [hm] at hm2
    injection hm2 with hmm
    subst hmm
    rw [hp]
    have hcent : centroidOf c = (0, 0) := by simp [centroidOf, hc0]
    have : (Int.fdiv (refSliceX m) 2, (0 : Int)) =
        (Int.fdiv ((centroidOf c).1 + refSliceX m) 2, (centroidOf c).2) := by
      rw [hcent]
      simp
    rw [this]
    exact List.mem_map_of_mem _ hc

/-- Witness for C10: a single degenerate center contour yields exactly one
waypoint `(slice_cx // 2, 0)`; a negative requested count yields none. -/
theorem C10_witness :
    (find_center_points [sqOut] [degenSeg] 3 blackImg).1.length =
        min (3 : Int).toNat [degenSeg].length ∧
      (find_center_points [sqOut] [degenSeg] (-2) blackImg).1 = [] ∧
      (Int.fdiv (refSliceX sqOut) 2, (0 : Int)) ∈
        (find_center_points [sqOut] [degenSeg] 3 blackImg).1 :=
  ⟨(C10_degenerate_dashes [sqOut] [degenSeg] 3 blackImg (by decide)).1,
   (C10_degenerate_dashes [sqOut] [degenSeg] (-2) blackImg (by decide)).2.1
     (by decide),
   (C10_degenerate_dashes [sqOut] [degenSeg] 3 blackImg (by decide)).2.2
     sqOut rfl degenSeg (by decide) (by decide)⟩

end SafeTown
